import Mathlib

/- Verification of the string pattern-matching core in src/main/grep.c.

   The embedding models the C code over Lean lists: a C string (no interior
   NUL bytes) is a `List Char` of its bytes, a raw vector is a `List Nat`,
   and the distinguished missing value NA is `Option.none`.  The regex
   engines (TRE, PCRE) are external libraries; where a modelled function
   calls into an engine the engine is abstracted by a match function
   together with the validity facts its API guarantees. -/

namespace RGrep

/- C's INT_MAX on the 32-bit int used throughout grep.c. -/
def INT_MAX : Int := 2147483647

/- ---------------------------------------------------------------- -/
/- Flag intake: the fixed/perl and fixed/ignore.case adjustments.    -/
/- ---------------------------------------------------------------- -/

/- Warning texts used by the flag intake (the C calls
   warning(_("argument '%s' will be ignored"), ...)). -/
def warn_igcase : String := "argument ignore.case = TRUE will be ignored"

def warn_perl : String := "argument perl = TRUE will be ignored"

def warn_invert : String := "argument invert = TRUE will be ignored"

/- Flag intake of do_grep, grep.c lines 1136-1141.  Returns the flags after
   adjustment and the warnings emitted: a warning fires for fixed with
   ignore.case but the ignore.case flag is NOT cleared; perl is cleared. -/
def do_grep_flags (igcase_opt perl_opt fixed_opt : Bool) :
    Bool × Bool × List String :=
  let w1 : List String := if fixed_opt && igcase_opt then [warn_igcase] else []
  if fixed_opt && perl_opt then (igcase_opt, false, w1 ++ [warn_perl])
  else (igcase_opt, perl_opt, w1)

/- Flag intake of do_gsub, grep.c lines 1944-1949: identical to do_grep. -/
def do_gsub_flags (igcase_opt perl_opt fixed_opt : Bool) :
    Bool × Bool × List String :=
  let w1 : List String := if fixed_opt && igcase_opt then [warn_igcase] else []
  if fixed_opt && perl_opt then (igcase_opt, false, w1 ++ [warn_perl])
  else (igcase_opt, perl_opt, w1)

/- Flag intake of do_regexpr, grep.c lines 2847-2852: identical to do_grep. -/
def do_regexpr_flags (igcase_opt perl_opt fixed_opt : Bool) :
    Bool × Bool × List String :=
  let w1 : List String := if fixed_opt && igcase_opt then [warn_igcase] else []
  if fixed_opt && perl_opt then (igcase_opt, false, w1 ++ [warn_perl])
  else (igcase_opt, perl_opt, w1)

/- Flag intake of do_strsplit, grep.c lines 465-468: strsplit takes no
   ignore.case argument; fixed with perl warns and clears perl. -/
def do_strsplit_flags (perl_opt fixed_opt : Bool) : Bool × List String :=
  if fixed_opt && perl_opt then (false, [warn_perl]) else (perl_opt, [])

/- Flag intake of do_regexec, grep.c lines 3198-3202: here fixed with
   ignore.case warns AND clears the ignore.case flag. -/
def do_regexec_flags (icase_opt fixed_opt : Bool) : Bool × List String :=
  if fixed_opt && icase_opt then (false, [warn_igcase]) else (icase_opt, [])

/- Flag intake of do_grepraw, grep.c lines 1456-1467: fixed with ignore.case
   warns without clearing; invert without value warns and clears invert. -/
def do_grepraw_flags (igcase_opt fixed_opt value invert : Bool) :
    Bool × Bool × List String :=
  let w1 : List String := if fixed_opt && igcase_opt then [warn_igcase] else []
  if invert && !value then (igcase_opt, false, w1 ++ [warn_invert])
  else (igcase_opt, invert, w1)

/- ---------------------------------------------------------------- -/
/- JIT stack sizing.                                                 -/
/- ---------------------------------------------------------------- -/

/- JIT_STACK_MAX, grep.c line 90: default maximum JIT stack size. -/
def JIT_STACK_MAX : Int := 64 * 1024 * 1024

/- jit_stack_size, grep.c lines 103-115.  getenv models the process
   environment; strtod abstracts R_strtod on the variable's text (the parsed
   double is modelled as a rational).  Returns the chosen ceiling in bytes
   and whether the invalid-and-ignored warning fired.  The C cast
   (int)(xdouble*1024*1024) truncates toward zero, which equals the floor
   for the nonnegative values accepted by the range test. -/
def jit_stack_size (getenv : String → Option String) (strtod : String → ℚ) :
    Int × Bool :=
  match getenv "R_PCRE_JIT_STACK_MAXSIZE" with
  | none => (JIT_STACK_MAX, false)
  | some p =>
      let xdouble := strtod p
      if 0 ≤ xdouble ∧ xdouble ≤ 1000 then (⌊xdouble * 1024 * 1024⌋, false)
      else (JIT_STACK_MAX, true)

/- ---------------------------------------------------------------- -/
/- The output-buffer growth step of the replacement engine.          -/
/- ---------------------------------------------------------------- -/

/- The growth step of do_gsub's output buffer, grep.c lines 2196-2203 (PCRE
   loop), 2217-2224 (PCRE tail), 2266-2273 (ERE loop), 2287-2294 (ERE tail):
   when the current capacity nns is below the needed size, the code first
   compares the CURRENT capacity against INT_MAX/2 and aborts past that
   threshold, otherwise doubles the capacity once. -/
def gsub_buffer_grow (nns needed : Int) : Except String Int :=
  if nns < needed then
    if nns > INT_MAX / 2 then Except.error "result string is too long"
    else Except.ok (nns * 2)
  else Except.ok nns

/- ---------------------------------------------------------------- -/
/- The literal (fixed) matchers.                                     -/
/- ---------------------------------------------------------------- -/

/- fgrep_one_bytes, grep.c lines 1060-1095, in the useBytes / single-byte
   regime (the branches that scan byte by byte): the byte offset of the first
   occurrence of pat in target, none standing for the C return value -1.  An
   empty pattern reports offset 0 at once; a pattern longer than the target
   makes every loop bound negative, so the scan never runs. -/
def fgrep_one_bytes (pat target : List Char) : Option Nat :=
  if pat.length = 0 then some 0
  else if target.length < pat.length then none
  else (List.range (target.length - pat.length + 1)).find?
      (fun i => decide ((target.drop i).take pat.length = pat))

/- The inner scan of the fixed splitter, grep.c lines 655-661 and 673-690:
   strncmp(bufp, split, slen) at every byte position of buf; a position where
   fewer than slen bytes remain cannot compare equal because the terminating
   NUL differs from every pattern byte. -/
def split_find (split buf : List Char) : Option Nat :=
  (List.range buf.length).find?
      (fun i => decide ((buf.drop i).take split.length = split))

/- fgrepraw1, grep.c lines 1371-1426: first occurrence of pat in a raw text
   at or after a 0-based offset; the unrolled cases for needle lengths 1, 2
   and 3 compute the same scan as the generic memcmp case. -/
def fgrepraw1 (pat text : List Nat) (offset : Nat) : Option Nat :=
  if text.length < pat.length then none
  else ((List.range (text.length - pat.length + 1)).filter
      (fun i => decide (offset ≤ i))).find?
      (fun i => decide ((text.drop i).take pat.length = pat))

/- ---------------------------------------------------------------- -/
/- The fixed-dialect splitter.                                       -/
/- ---------------------------------------------------------------- -/

/- The fixed-dialect splitter for one element, grep.c lines 650-699, for a
   nonempty split token (the empty token goes to the split-into-characters
   branch instead).  The count pass (655-661) finds the number ntok of
   non-overlapping occurrences, the fill pass (668-692) extracts the ntok
   chunks before each occurrence, and a nonempty remainder after the last
   occurrence is appended as a final token (693-698).  The recursion below
   produces that token list directly: chunk before the first occurrence,
   then the tokens of the rest, with an empty remainder yielding nothing. -/
def strsplit_fixed_elem (split s : List Char) (hsplit : split ≠ []) :
    List (List Char) :=
  match hf : split_find split s with
  | none => if s = [] then [] else [s]
  | some st => s.take st ::
      strsplit_fixed_elem split (s.drop (st + split.length)) hsplit
termination_by s.length
decreasing_by
  have h1 : st < s.length := by
    unfold split_find at hf
    exact List.mem_range.mp (List.mem_of_find?_eq_some hf)
  have h2 : split.length ≠ 0 := by simpa using hsplit
  simp only [List.length_drop]
  omega

/- ---------------------------------------------------------------- -/
/- The fixed-dialect substitution path of do_gsub.                  -/
/- ---------------------------------------------------------------- -/

/- The fixed-dialect replacement builder of do_gsub, grep.c lines 2103-2124:
   the do-while copies the chunk before each occurrence, appends the
   replacement and continues right after the matched bytes; with global unset
   the loop body runs once; the tail after the last replaced occurrence is
   copied verbatim by the closing strcpy. -/
def gsub_fixed_build (global : Bool) (spat srep : List Char)
    (hpat : spat ≠ []) (s : List Char) : List Char :=
  match hf : fgrep_one_bytes spat s with
  | none => s
  | some st =>
      if global then
        s.take st ++ srep ++
          gsub_fixed_build global spat srep hpat (s.drop (st + spat.length))
      else
        s.take st ++ srep ++ s.drop (st + spat.length)
termination_by s.length
decreasing_by
  have h2 : spat.length ≠ 0 := by simpa using hpat
  have h1 : st + spat.length ≤ s.length := by
    unfold fgrep_one_bytes at hf
    rw [if_neg h2] at hf
    by_cases hlt : s.length < spat.length
    · rw [if_pos hlt] at hf; exact absurd hf (by simp)
    · rw [if_neg hlt] at hf
      have hmem := List.mem_range.mp (List.mem_of_find?_eq_some hf)
      omega
  simp only [List.length_drop]
  omega

/- The per-element result of the fixed branch of do_gsub, grep.c lines
   2094-2132: a missing input element stays missing (2077-2080); no
   occurrence returns the original element (2098-2099); with an occurrence a
   missing replacement gives the missing value (2100-2101); otherwise the
   built string.  srep = none models a replacement that is NA_STRING. -/
def do_gsub_fixed_elem (global : Bool) (spat : List Char) (hpat : spat ≠ [])
    (srep : Option (List Char)) (elem : Option (List Char)) :
    Option (List Char) :=
  match elem with
  | none => none
  | some s =>
      match fgrep_one_bytes spat s with
      | none => some s
      | some _ =>
          match srep with
          | none => none
          | some r => some (gsub_fixed_build global spat r hpat s)

/- ---------------------------------------------------------------- -/
/- Front ends: missing-pattern handling and early argument checks.   -/
/- ---------------------------------------------------------------- -/

/- Result shapes of do_grep: match indices (value and grepl both unset),
   the matching text values (value set), or logicals (grepl). -/
inductive GrepAns
  | idx : List (Option Int) → GrepAns
  | strs : List (Option (List Char)) → GrepAns
  | lgl : List (Option Bool) → GrepAns
deriving DecidableEq

/- Front end of do_grep, grep.c lines 1152-1168: with pattern NA_STRING the
   call returns early with an all-NA answer in the requested shape.  The
   work done for a non-missing pattern (compilation and the element loop)
   is abstracted by rest; the missing-pattern branch never reaches it. -/
def do_grep_model (rest : GrepAns) (value grepl : Bool)
    (pat : Option (List Char)) (text : List (Option (List Char))) :
    Except String GrepAns :=
  match pat with
  | none =>
      if value then Except.ok (GrepAns.strs (text.map fun _ => none))
      else if grepl then Except.ok (GrepAns.lgl (text.map fun _ => none))
      else Except.ok (GrepAns.idx (text.map fun _ => none))
  | some _ => Except.ok rest

/- Front end of do_gsub, grep.c lines 1964-1970 (pattern NA_STRING returns
   an all-NA vector), 2043-2045 (the fixed dialect rejects a pattern that
   translates to the empty string before the element loop) and the element
   loop 2074-2365.  The fixed branch maps the real per-element function;
   the perl and ERE branches are abstracted by elemProc. -/
def do_gsub_model (elemProc : Option (List Char) → Option (List Char))
    (global fixed : Bool) (pat rep : Option (List Char))
    (text : List (Option (List Char))) :
    Except String (List (Option (List Char))) :=
  match pat with
  | none => Except.ok (text.map fun _ => none)
  | some spat =>
      if fixed then
        if hz : spat = [] then Except.error "zero-length pattern"
        else Except.ok (text.map (do_gsub_fixed_elem global spat hz rep))
      else Except.ok (text.map elemProc)

/- Front end of do_regexpr, grep.c lines 2854-2856: unlike grep and sub, a
   missing pattern is rejected as an invalid argument before any result is
   built.  PRIMVAL distinguishes regexpr (gregexpr false) from gregexpr
   (true); both run this same check.  rest abstracts the work done for a
   non-missing pattern. -/
def do_regexpr_model (rest : List (Option Int)) (gregexpr : Bool)
    (pat : Option (List Char)) (text : List (Option (List Char))) :
    Except String (List (Option Int)) :=
  match pat with
  | none => Except.error "invalid pattern argument"
  | some _ => Except.ok rest

/- Result shapes of do_grepraw: integer positions, one raw vector, or a
   list of raw vectors. -/
inductive RawAns
  | ints : List Int → RawAns
  | bytes : List Nat → RawAns
  | pieces : List (List Nat) → RawAns
deriving DecidableEq

/- Front end of do_grepraw, grep.c lines 1456-1479: flag adjustment, then
   the offset checks: offset < 1 is a fatal error (1470-1471) and an offset
   past the text length returns a zero-length integer vector (1476-1477)
   before the pattern is ever compiled or matched.  fixedBranch and
   treBranch abstract the code below line 1479 (the literal scan and the
   TRE compile/exec paths); they are consulted only when the offset checks
   pass. -/
def do_grepraw_model (fixedBranch treBranch : Unit → Except String RawAns)
    (pat text : List Nat) (offset : Int)
    (igcase fixed value all invert : Bool) : Except String RawAns :=
  let flags := do_grepraw_flags igcase fixed value invert
  if offset < 1 then Except.error "invalid offset argument"
  else if offset > (text.length : Int) then Except.ok (RawAns.ints [])
  else if fixed then fixedBranch () else treBranch ()

/- ---------------------------------------------------------------- -/
/- The all-matches loops of gregexpr.                                -/
/- ---------------------------------------------------------------- -/

/- The match loop of gregexpr_Regexc, grep.c lines 2426-2472.  The TRE
   engine is abstracted by m: given the eflags bit (REG_NOTBOL, set from
   the second iteration on) and the current offset it reports the rm_so and
   rm_eo of a match in the suffix starting at that offset (positions
   relative to the offset, as tre_regexecb on string+offset returns them),
   or none.  Each match records its 1-based start and its length; an empty
   match advances the offset by rm_so + 1 (line 2456), a nonempty one by
   rm_eo (line 2458); the loop only attempts a match while offset < len
   (line 2427). -/
def gregexpr_Regexc_loop (m : Bool → Nat → Option (Nat × Nat)) (len : Nat)
    (offset : Nat) (notbol : Bool) : List (Int × Int) :=
  if h : offset < len then
    match m notbol offset with
    | some (st, eo) =>
        ((offset + st + 1 : Int), ((eo - st : Nat) : Int)) ::
          (if eo - st = 0 then gregexpr_Regexc_loop m len (offset + st + 1) true
           else gregexpr_Regexc_loop m len (offset + eo) true)
    | none => []
  else []
termination_by len - offset
decreasing_by
  · omega
  · have heo : st + 1 ≤ eo := by omega
    omega

/- gregexpr_Regexc, grep.c lines 2396-2487: when no match was found at all
   the answer is the single pair (-1, -1) (lines 2461-2464). -/
def gregexpr_Regexc_model (m : Bool → Nat → Option (Nat × Nat)) (len : Nat) :
    List (Int × Int) :=
  if (gregexpr_Regexc_loop m len 0 false).isEmpty then [(-1, -1)]
  else gregexpr_Regexc_loop m len 0 false

/- The match loop of R_pcre_gregexpr, grep.c lines 2680-2738.  Here the
   engine reports absolute byte positions in the whole string; hm is the
   PCRE API guarantee that a match starting from a given offset never begins
   before it.  Each match records its 1-based start and byte length; an
   empty match advances the start offset to ovector[0]+1, a nonempty one to
   ovector[1] (lines 2729-2732), and the loop ends when the new start
   reaches slen (line 2733) or on no match.  Unlike the TRE loop, the first
   match attempt happens even on an empty subject. -/
def R_pcre_gregexpr_loop (m : Nat → Option (Nat × Nat))
    (hm : ∀ start st eo, m start = some (st, eo) → start ≤ st)
    (slen start : Nat) : List (Int × Int) :=
  match hmat : m start with
  | some (st, eo) =>
      ((st : Int) + 1, ((eo - st : Nat) : Int)) ::
        (if hempty : eo - st = 0 then
           if slen ≤ st + 1 then []
           else R_pcre_gregexpr_loop m hm slen (st + 1)
         else
           if slen ≤ eo then []
           else R_pcre_gregexpr_loop m hm slen eo)
  | none => []
termination_by slen - start
decreasing_by
  · have hst := hm start st eo hmat
    omega
  · have hst := hm start st eo hmat
    omega

/- R_pcre_gregexpr, grep.c lines 2649-2784: when no match was found at all
   the answer is the single pair (-1, -1) (lines 2736, 2753-2754). -/
def R_pcre_gregexpr_model (m : Nat → Option (Nat × Nat))
    (hm : ∀ start st eo, m start = some (st, eo) → start ≤ st)
    (slen : Nat) : List (Int × Int) :=
  if (R_pcre_gregexpr_loop m hm slen 0).isEmpty then [(-1, -1)]
  else R_pcre_gregexpr_loop m hm slen 0

/- ---------------------------------------------------------------- -/
/- The ERE substitution loop of do_gsub, with its output decomposed  -/
/- into pieces.                                                      -/
/- ---------------------------------------------------------------- -/

/- One piece of the output buffer built by do_gsub: lit is a run of bytes
   copied verbatim from the subject, rep is a replacement inserted by
   string_adj for one match. -/
inductive GsubPiece
  | lit : List Char → GsubPiece
  | rep : List Char → GsubPiece
deriving DecidableEq

def GsubPiece.bytes : GsubPiece → List Char
  | GsubPiece.lit cs => cs
  | GsubPiece.rep cs => cs

/- The full output buffer: the pieces in order. -/
def joinPieces (ps : List GsubPiece) : List Char :=
  (ps.map GsubPiece.bytes).flatten

/- The bytes copied verbatim from the subject, in order. -/
def litBytes : List GsubPiece → List Char
  | [] => []
  | GsubPiece.lit cs :: ps => cs ++ litBytes ps
  | GsubPiece.rep _ :: ps => litBytes ps

/- The bytes of s outside a sorted list of half-open byte ranges, read from
   position off on: for each range the gap before it, and past the last
   range the tail of s. -/
def outsideFrom (s : List Char) : Nat → List (Nat × Nat) → List Char
  | off, [] => s.drop off
  | off, (a, b) :: rest => (s.drop off).take (a - off) ++ outsideFrom s b rest

/- The ERE match-and-replace loop of do_gsub, grep.c lines 2250-2295 (the
   byte path; the PCRE loop at 2158-2225 has the same shape).  The TRE
   engine is abstracted by m: given the eflags bit (REG_NOTBOL from the
   second iteration on) and the suffix s+offset it reports rm_so and rm_eo
   of regmatch[0], relative to the offset; hm is the engine guarantee that
   rm_so ≤ rm_eo ≤ length of the suffix.  adj abstracts string_adj applied
   to the replacement with this iteration's capture data.  Per iteration the
   code copies the chunk before the match (2256-2257), inserts the
   replacement unless a replacement was already made at or past this match
   end (the last_end guard, 2258-2261), advances offset to the match end
   (2262), stops at the end of the subject or with global unset (2263), and
   after an empty match copies one byte and advances over it (2264-2265);
   after the loop the tail is copied verbatim (2295).  The result is the
   output decomposed into pieces together with the absolute (start, end)
   byte ranges of the matches consumed. -/
def do_gsub_ere_loop (m : Bool → List Char → Option (Nat × Nat))
    (hm : ∀ b l so eo, m b l = some (so, eo) → so ≤ eo ∧ eo ≤ l.length)
    (adj : Bool → List Char → List Char) (global : Bool) (s : List Char)
    (offset : Nat) (notbol : Bool) (last_end : Int) :
    List GsubPiece × List (Nat × Nat) :=
  match hmat : m notbol (s.drop offset) with
  | none => ([GsubPiece.lit (s.drop offset)], [])
  | some (so, eo) =>
      let pre : GsubPiece := GsubPiece.lit ((s.drop offset).take so)
      let reps : List GsubPiece :=
        if (offset + eo : Int) > last_end then
          [GsubPiece.rep (adj notbol (s.drop offset))] else []
      let last_end' : Int :=
        if (offset + eo : Int) > last_end then (offset + eo : Int) else last_end
      if hbrk : s.length ≤ offset + eo ∨ global = false then
        (pre :: reps ++ [GsubPiece.lit (s.drop (offset + eo))],
         [(offset + so, offset + eo)])
      else
        if hempty : eo = so then
          let next := do_gsub_ere_loop m hm adj global s (offset + eo + 1)
            true last_end'
          (pre :: reps ++ GsubPiece.lit ((s.drop (offset + eo)).take 1) ::
             next.1,
           (offset + so, offset + eo) :: next.2)
        else
          let next := do_gsub_ere_loop m hm adj global s (offset + eo)
            true last_end'
          (pre :: reps ++ next.1, (offset + so, offset + eo) :: next.2)
termination_by s.length - offset
decreasing_by
  · omega
  · have hv := hm notbol (s.drop offset) so eo hmat
    simp only [List.length_drop] at hv
    omega

/- The ERE branch of do_gsub for one element, assembled: the output string
   is the pieces joined (first call with offset 0, eflags 0, last_end -1,
   lines 2250-2295). -/
def do_gsub_ere (m : Bool → List Char → Option (Nat × Nat))
    (hm : ∀ b l so eo, m b l = some (so, eo) → so ≤ eo ∧ eo ≤ l.length)
    (adj : Bool → List Char → List Char) (global : Bool) (s : List Char) :
    List Char × List GsubPiece × List (Nat × Nat) :=
  let r := do_gsub_ere_loop m hm adj global s 0 false (-1)
  (joinPieces r.1, r.1, r.2)

/- The per-element result assembly of the ERE branch of do_gsub, grep.c
   lines 2281-2301: nmatch counts loop iterations, so nmatch = 0 exactly
   when the very first tre_regexecb call fails; then the original element is
   returned (2281-2282).  Otherwise a missing replacement yields the missing
   value (2283-2284), else the built output string.  repNA models
   STRING_ELT(rep, 0) == NA_STRING. -/
def do_gsub_ere_elem (m : Bool → List Char → Option (Nat × Nat))
    (hm : ∀ b l so eo, m b l = some (so, eo) → so ≤ eo ∧ eo ≤ l.length)
    (adj : Bool → List Char → List Char) (global : Bool) (repNA : Bool)
    (s : List Char) : Option (List Char) :=
  match m false (s.drop 0) with
  | none => some s
  | some _ =>
      if repNA then none else some (do_gsub_ere m hm adj global s).1

/- ---------------------------------------------------------------- -/
/- Concrete engine stand-ins used to exercise the models above.      -/
/- ---------------------------------------------------------------- -/

/- An environment holding only the JIT stack variable, set to "2.5". -/
def jit_env_example : String → Option String :=
  fun k => if k = "R_PCRE_JIT_STACK_MAXSIZE" then some "2.5" else none

/- An environment holding only the name the spec uses, set to "1". -/
def jit_env_unprefixed : String → Option String :=
  fun k => if k = "PCRE_JIT_STACK_MAXSIZE" then some "1" else none

/- A numeric parse that reads "2.5" (and everything else) as 5/2. -/
def jit_strtod_example : String → ℚ := fun _ => (5 : ℚ) / 2

/- A numeric parse that reads everything as 1. -/
def jit_strtod_one : String → ℚ := fun _ => 1

/- A relative matcher that always reports the empty match at the start. -/
def mT_example : Bool → Nat → Option (Nat × Nat) := fun _ _ => some (0, 0)

/- An absolute matcher reporting the empty match at the current offset. -/
def mP_example : Nat → Option (Nat × Nat) := fun start => some (start, start)

/- A suffix matcher that matches the first byte of a nonempty suffix. -/
def mB_example : Bool → List Char → Option (Nat × Nat) :=
  fun _ l => if l.length = 0 then none else some (0, 1)

/- A replacement builder inserting the single byte R. -/
def adj_example : Bool → List Char → List Char := fun _ _ => ['R']

/- ================================================================ -/
/- Theorems.                                                         -/
/- ================================================================ -/

/-- Claim C1, counterexample: gregexpr (do_regexpr with PRIMVAL 1) rejects a
missing pattern as an invalid argument (grep.c lines 2854-2856) instead of
returning a list of single missing entries, so a missing pattern IS treated
as an error by one operation. -/
theorem C1_counterexample :
    do_regexpr_model [] true none [some ['a']] =
      Except.error "invalid pattern argument" := rfl

/-- Claim C1, amended: with a missing pattern, sub/gsub return all-missing
text, grep returns all-missing indices (all-missing text when value is set)
and grepl all-missing booleans; but regexpr and gregexpr reject a missing
pattern with the fatal error "invalid 'pattern' argument". -/
theorem C1_missing_pattern (rest : GrepAns) (restR : List (Option Int))
    (elemProc : Option (List Char) → Option (List Char))
    (global fixed grepl gregexpr : Bool) (rep : Option (List Char))
    (text : List (Option (List Char))) :
    do_grep_model rest true grepl none text =
      Except.ok (GrepAns.strs (text.map fun _ => none)) ∧
    do_grep_model rest false true none text =
      Except.ok (GrepAns.lgl (text.map fun _ => none)) ∧
    do_grep_model rest false false none text =
      Except.ok (GrepAns.idx (text.map fun _ => none)) ∧
    do_gsub_model elemProc global fixed none rep text =
      Except.ok (text.map fun _ => none) ∧
    do_regexpr_model restR gregexpr none text =
      Except.error "invalid pattern argument" := by
  refine ⟨rfl, rfl, rfl, rfl, rfl⟩

/-- Claim C5, counterexample: in do_grep with fixed and ignore_case both
set, the warning is emitted but the ignore_case flag is NOT cleared (grep.c
lines 1136-1137 warn without assigning), so the claim that ignore_case is
cleared in every operation fails on do_grep. -/
theorem C5_counterexample :
    (do_grep_flags true false true).1 = true ∧
    (do_grep_flags true false true).2.2 = [warn_igcase] := by decide

/-- Claim C5, amended: when fixed and perl are both set a warning is emitted
and perl is cleared (strsplit, grep, gsub, regexpr); when fixed and
ignore_case are both set a warning is emitted, but the flag is cleared only
in regexec — grep, gsub, regexpr and grepRaw leave it set (their fixed
paths never read it). -/
theorem C5_flag_intake :
    (∀ ig p, (do_grep_flags ig p true).2.1 = false ∧
      (do_grep_flags ig p true).1 = ig) ∧
    (do_grep_flags true true true).2.2 = [warn_igcase, warn_perl] ∧
    (∀ ig p, (do_gsub_flags ig p true).2.1 = false ∧
      (do_gsub_flags ig p true).1 = ig) ∧
    (do_gsub_flags true true true).2.2 = [warn_igcase, warn_perl] ∧
    (∀ ig p, (do_regexpr_flags ig p true).2.1 = false ∧
      (do_regexpr_flags ig p true).1 = ig) ∧
    (do_regexpr_flags true true true).2.2 = [warn_igcase, warn_perl] ∧
    (∀ p, (do_strsplit_flags p true).1 = false) ∧
    (do_strsplit_flags true true).2 = [warn_perl] ∧
    (do_regexec_flags true true).1 = false ∧
    (do_regexec_flags true true).2 = [warn_igcase] ∧
    (∀ ig v i, (do_grepraw_flags ig true v i).1 = ig) ∧
    (do_grepraw_flags true true true true).2.2 = [warn_igcase] := by decide

/-- Claim C6, counterexample: setting the variable named in the claim,
PCRE_JIT_STACK_MAXSIZE, to the in-range value 1 changes nothing — the code
reads R_PCRE_JIT_STACK_MAXSIZE (grep.c line 106), so the ceiling stays at
the 64 MB default and no warning fires, while the claim promises a 1 MB
ceiling. -/
theorem C6_counterexample :
    jit_stack_size jit_env_unprefixed jit_strtod_one = (67108864, false) ∧
    (67108864 : Int) ≠ 1 * 1024 * 1024 := by
  constructor
  · rfl
  · decide

/-- Claim C6, amended: the environment variable is named
R_PCRE_JIT_STACK_MAXSIZE; it is read as a floating-point number of
megabytes, values in [0, 1000] set the ceiling to that many megabytes
(truncated to bytes), out-of-range values warn and are ignored, and when
the variable is absent or ignored the ceiling is the 64 MB default. -/
theorem C6_jit_stack_size (getenv : String → Option String)
    (strtod : String → ℚ) (p : String) :
    (getenv "R_PCRE_JIT_STACK_MAXSIZE" = none →
      jit_stack_size getenv strtod = (JIT_STACK_MAX, false)) ∧
    (getenv "R_PCRE_JIT_STACK_MAXSIZE" = some p → 0 ≤ strtod p →
      strtod p ≤ 1000 →
      jit_stack_size getenv strtod = (⌊strtod p * 1024 * 1024⌋, false)) ∧
    (getenv "R_PCRE_JIT_STACK_MAXSIZE" = some p →
      ¬(0 ≤ strtod p ∧ strtod p ≤ 1000) →
      jit_stack_size getenv strtod = (JIT_STACK_MAX, true)) ∧
    JIT_STACK_MAX = 64 * 1024 * 1024 := by
  refine ⟨?_, ?_, ?_, rfl⟩
  · intro h; unfold jit_stack_size; rw [h]
  · intro h h0 h1; unfold jit_stack_size; rw [h]
    simp only [if_pos (And.intro h0 h1)]
  · intro h hrange; unfold jit_stack_size; rw [h]
    simp only [if_neg hrange]

/-- Claim C6 witness: with R_PCRE_JIT_STACK_MAXSIZE set to a text parsed as
2.5, the ceiling becomes 2.5 MB = 2621440 bytes with no warning. -/
theorem C6_jit_stack_size_witness :
    jit_stack_size jit_env_example jit_strtod_example = (2621440, false) := by
  have h := (C6_jit_stack_size jit_env_example jit_strtod_example "2.5").2.1
    rfl (by norm_num [jit_strtod_example]) (by norm_num [jit_strtod_example])
  rw [h]
  norm_num [jit_strtod_example]

/-- Claim C7, counterexample: with current capacity 1000 and a needed
capacity of INT_MAX/2 + 1 the code doubles to 2000 and does not abort, so
"required capacity above INT_MAX/2 aborts" fails; the guard compares the
CURRENT capacity against the threshold (grep.c lines 2268, 2289). -/
theorem C7_counterexample :
    gsub_buffer_grow 1000 1073741824 = Except.ok 2000 ∧
    INT_MAX / 2 < (1073741824 : Int) := by
  constructor
  · rfl
  · decide

/-- Claim C7, amended: whenever the output buffer is too small for the next
piece, the call aborts with the fatal error "result string is too long" if
the current capacity already exceeds INT_MAX/2, and otherwise the capacity
is doubled. -/
theorem C7_buffer_grow (nns needed : Int) (hsmall : nns < needed) :
    (INT_MAX / 2 < nns →
      gsub_buffer_grow nns needed = Except.error "result string is too long") ∧
    (nns ≤ INT_MAX / 2 →
      gsub_buffer_grow nns needed = Except.ok (nns * 2)) := by
  unfold gsub_buffer_grow
  rw [if_pos hsmall]
  constructor
  · intro h; rw [if_pos h]
  · intro h; rw [if_neg (by omega)]

/-- Claim C7 witness: capacity 10 below needed 20 doubles to 20. -/
theorem C7_buffer_grow_witness :
    gsub_buffer_grow 10 20 = Except.ok 20 := by
  have h := (C7_buffer_grow 10 20 (by decide)).2 (by decide)
  simpa using h

/-- Claim C9: sub and gsub with the fixed dialect reject a pattern that
translates to the empty string with the fatal error "zero-length pattern"
regardless of the text (so before any element is processed), while the
non-fixed dialects accept it and produce a result vector. -/
theorem C9_zero_length_pattern
    (elemProc : Option (List Char) → Option (List Char)) (global : Bool)
    (rep : Option (List Char)) (text : List (Option (List Char))) :
    do_gsub_model elemProc global true (some []) rep text =
      Except.error "zero-length pattern" ∧
    do_gsub_model elemProc global false (some []) rep text =
      Except.ok (text.map elemProc) := by
  constructor <;> rfl

/-- Claim C10: a grepRaw call whose 1-based offset is past the byte length
of the text returns a zero-length integer vector whatever the flags are,
and the result does not depend on the literal-scan or TRE branches at all
(so no pattern compilation or matching is attempted). -/
theorem C10_grepraw_offset (fb1 fb2 tb1 tb2 : Unit → Except String RawAns)
    (pat text : List Nat) (offset : Int)
    (igcase fixed value all invert : Bool)
    (h1 : 1 ≤ offset) (h2 : (text.length : Int) < offset) :
    do_grepraw_model fb1 tb1 pat text offset igcase fixed value all invert =
      Except.ok (RawAns.ints []) ∧
    do_grepraw_model fb1 tb1 pat text offset igcase fixed value all invert =
      do_grepraw_model fb2 tb2 pat text offset igcase fixed value all
        invert := by
  have hn : ¬(offset < 1) := by omega
  have hp : offset > (text.length : Int) := by omega
  constructor
  · unfold do_grepraw_model
    rw [if_neg hn, if_pos hp]
  · unfold do_grepraw_model
    simp only [if_neg hn, if_pos hp]

/-- Claim C10 witness: offset 5 on a 2-byte text gives integer(0) under two
different stand-ins for the matching branches. -/
theorem C10_grepraw_offset_witness :
    do_grepraw_model (fun _ => Except.ok (RawAns.bytes []))
        (fun _ => Except.ok (RawAns.bytes [7])) [0, 1] [255, 0] 5
        true false true false true = Except.ok (RawAns.ints []) :=
  (C10_grepraw_offset (fun _ => Except.ok (RawAns.bytes []))
    (fun _ => Except.error "x") (fun _ => Except.ok (RawAns.bytes [7]))
    (fun _ => Except.ok (RawAns.ints [3])) [0, 1] [255, 0] 5
    true false true false true (by decide) (by decide)).1

/- Unfolding equations for the fixed splitter, in a form convenient for
   stepping through concrete inputs. -/
theorem strsplit_fixed_elem_none (split s : List Char) (hsplit : split ≠ [])
    (h : split_find split s = none) :
    strsplit_fixed_elem split s hsplit = if s = [] then [] else [s] := by
  rw [strsplit_fixed_elem]
  split
  · rfl
  · next st heq => rw [h] at heq; exact absurd heq (by simp)

theorem strsplit_fixed_elem_step (split s : List Char) (hsplit : split ≠ [])
    (st : Nat) (tok rest : List Char) (h : split_find split s = some st)
    (htok : s.take st = tok) (hrest : s.drop (st + split.length) = rest) :
    strsplit_fixed_elem split s hsplit =
      tok :: strsplit_fixed_elem split rest hsplit := by
  rw [strsplit_fixed_elem]
  split
  · next heq => rw [h] at heq; exact absurd heq (by simp)
  · next st' heq =>
      rw [h] at heq
      injection heq with h1
      subst h1
      rw [htok, hrest]

/-- Claim C2, counterexample: splitting the empty string on the fixed
separator "," yields a zero-token result, not the claimed one-element
result containing the empty string: the fixed splitter counts no matches
and the remainder test *bufp fails on the empty buffer (grep.c lines
650-664, 693-698). -/
theorem C2_counterexample :
    strsplit_fixed_elem [','] [] (by decide) = [] ∧
    ([] : List (List Char)) ≠ [[]] := by
  constructor
  · rw [strsplit_fixed_elem_none [','] [] (by decide) (by decide)]
    rfl
  · decide

/-- Claim C2, amended: splitting "a,b,,c" on the fixed separator ","
yields exactly the four tokens "a", "b", "", "c"; splitting the empty
string yields the empty (zero-token) result. -/
theorem C2_strsplit_fixed :
    strsplit_fixed_elem [','] ['a', ',', 'b', ',', ',', 'c'] (by decide) =
      [['a'], ['b'], [], ['c']] ∧
    strsplit_fixed_elem [','] [] (by decide) = [] := by
  constructor
  · rw [strsplit_fixed_elem_step [','] ['a', ',', 'b', ',', ',', 'c']
        (by decide) 1 ['a'] ['b', ',', ',', 'c'] (by decide) (by decide)
        (by decide)]
    rw [strsplit_fixed_elem_step [','] ['b', ',', ',', 'c'] (by decide) 1
        ['b'] [',', 'c'] (by decide) (by decide) (by decide)]
    rw [strsplit_fixed_elem_step [','] [',', 'c'] (by decide) 0 [] ['c']
        (by decide) (by decide) (by decide)]
    rw [strsplit_fixed_elem_none [','] ['c'] (by decide) (by decide)]
    decide
  · rw [strsplit_fixed_elem_none [','] [] (by decide) (by decide)]
    rfl

/- Unfolding equations for the TRE gregexpr loop. -/
theorem gregexpr_Regexc_loop_stop (m : Bool → Nat → Option (Nat × Nat))
    (len offset : Nat) (notbol : Bool) (h : ¬offset < len) :
    gregexpr_Regexc_loop m len offset notbol = [] := by
  rw [gregexpr_Regexc_loop, dif_neg h]

theorem gregexpr_Regexc_loop_none (m : Bool → Nat → Option (Nat × Nat))
    (len offset : Nat) (notbol : Bool) (h : offset < len)
    (hmat : m notbol offset = none) :
    gregexpr_Regexc_loop m len offset notbol = [] := by
  rw [gregexpr_Regexc_loop, dif_pos h, hmat]

theorem gregexpr_Regexc_loop_some (m : Bool → Nat → Option (Nat × Nat))
    (len offset : Nat) (notbol : Bool) (st eo : Nat) (h : offset < len)
    (hmat : m notbol offset = some (st, eo)) :
    gregexpr_Regexc_loop m len offset notbol =
      ((offset + st + 1 : Int), ((eo - st : Nat) : Int)) ::
        (if eo - st = 0 then gregexpr_Regexc_loop m len (offset + st + 1) true
         else gregexpr_Regexc_loop m len (offset + eo) true) := by
  rw [gregexpr_Regexc_loop, dif_pos h, hmat]

/- The TRE gregexpr loop records at most len - offset matches: every
   recorded match strictly advances the offset and matches are attempted
   only while offset < len. -/
theorem gregexpr_Regexc_loop_length (m : Bool → Nat → Option (Nat × Nat))
    (len : Nat) : ∀ fuel offset notbol, len - offset ≤ fuel →
    (gregexpr_Regexc_loop m len offset notbol).length ≤ len - offset := by
  intro fuel
  induction fuel with
  | zero =>
      intro offset notbol hf
      rw [gregexpr_Regexc_loop_stop m len offset notbol (by omega)]
      simp
  | succ k ih =>
      intro offset notbol hf
      by_cases h : offset < len
      · cases hmat : m notbol offset with
        | none =>
            rw [gregexpr_Regexc_loop_none m len offset notbol h hmat]
            simp
        | some p =>
            obtain ⟨st, eo⟩ := p
            rw [gregexpr_Regexc_loop_some m len offset notbol st eo h hmat]
            by_cases hz : eo - st = 0
            · rw [if_pos hz]
              have hb := ih (offset + st + 1) true (by omega)
              simp only [List.length_cons]
              omega
            · rw [if_neg hz]
              have hb := ih (offset + eo) true (by omega)
              simp only [List.length_cons]
              omega
      · rw [gregexpr_Regexc_loop_stop m len offset notbol h]
        simp

/- Unfolding equations for the PCRE gregexpr loop. -/
theorem R_pcre_gregexpr_loop_none (m : Nat → Option (Nat × Nat))
    (hm : ∀ start st eo, m start = some (st, eo) → start ≤ st)
    (slen start : Nat) (h : m start = none) :
    R_pcre_gregexpr_loop m hm slen start = [] := by
  rw [R_pcre_gregexpr_loop]
  split
  · next st eo heq => rw [h] at heq; exact absurd heq (by simp)
  · rfl

theorem R_pcre_gregexpr_loop_some (m : Nat → Option (Nat × Nat))
    (hm : ∀ start st eo, m start = some (st, eo) → start ≤ st)
    (slen start st eo : Nat) (h : m start = some (st, eo)) :
    R_pcre_gregexpr_loop m hm slen start =
      ((st : Int) + 1, ((eo - st : Nat) : Int)) ::
        (if eo - st = 0 then
          (if slen ≤ st + 1 then []
           else R_pcre_gregexpr_loop m hm slen (st + 1))
         else
          (if slen ≤ eo then []
           else R_pcre_gregexpr_loop m hm slen eo)) := by
  rw [R_pcre_gregexpr_loop]
  split
  · next st' eo' heq =>
      rw [h] at heq
      injection heq with heq2
      rw [Prod.mk.injEq] at heq2
      obtain ⟨h1, h2⟩ := heq2
      subst h1; subst h2
      rw [dite_eq_ite]
  · next heq => rw [h] at heq; exact absurd heq (by simp)

/- The PCRE gregexpr loop records at most slen - start + 1 matches: the
   start offset strictly increases and is below slen on every iteration
   after the first. -/
theorem R_pcre_gregexpr_loop_length (m : Nat → Option (Nat × Nat))
    (hm : ∀ start st eo, m start = some (st, eo) → start ≤ st)
    (slen : Nat) : ∀ fuel start, slen - start ≤ fuel →
    (R_pcre_gregexpr_loop m hm slen start).length ≤ slen - start + 1 := by
  intro fuel
  induction fuel with
  | zero =>
      intro start hf
      cases hmat : m start with
      | none =>
          rw [R_pcre_gregexpr_loop_none m hm slen start hmat]
          simp
      | some p =>
          obtain ⟨st, eo⟩ := p
          have hst := hm start st eo hmat
          rw [R_pcre_gregexpr_loop_some m hm slen start st eo hmat]
          by_cases hz : eo - st = 0
          · rw [if_pos hz, if_pos (by omega)]
            simp
          · rw [if_neg hz, if_pos (by omega)]
            simp
  | succ k ih =>
      intro start hf
      cases hmat : m start with
      | none =>
          rw [R_pcre_gregexpr_loop_none m hm slen start hmat]
          simp
      | some p =>
          obtain ⟨st, eo⟩ := p
          have hst := hm start st eo hmat
          rw [R_pcre_gregexpr_loop_some m hm slen start st eo hmat]
          by_cases hz : eo - st = 0
          · rw [if_pos hz]
            by_cases hstop : slen ≤ st + 1
            · rw [if_pos hstop]; simp
            · rw [if_neg hstop]
              have hb := ih (st + 1) (by omega)
              simp only [List.length_cons]
              omega
          · rw [if_neg hz]
            by_cases hstop : slen ≤ eo
            · rw [if_pos hstop]; simp
            · rw [if_neg hstop]
              have hb := ih eo (by omega)
              simp only [List.length_cons]
              omega

/-- Claim C4: for a pattern that matches the empty string at position 0 the
all-matches loops of gregexpr (TRE path gregexpr_Regexc, PCRE path
R_pcre_gregexpr) are total functions here, and they return at most
len(subject) + 1 recorded matches: an empty match advances the scan offset
by one position, a nonempty one by the match end.  Neither loop contains an
emission site for the infinite-empty-match warning, so that warning fires
zero times (hence at most once) per element. -/
theorem C4_gregexpr_empty_match_bound (mT : Bool → Nat → Option (Nat × Nat))
    (len : Nat) (mP : Nat → Option (Nat × Nat))
    (hmP : ∀ start st eo, mP start = some (st, eo) → start ≤ st)
    (slen : Nat) (hT0 : mT false 0 = some (0, 0)) (hP0 : mP 0 = some (0, 0)) :
    (gregexpr_Regexc_model mT len).length ≤ len + 1 ∧
    (R_pcre_gregexpr_model mP hmP slen).length ≤ slen + 1 := by
  constructor
  · have hb := gregexpr_Regexc_loop_length mT len len 0 false (by omega)
    unfold gregexpr_Regexc_model
    by_cases he : (gregexpr_Regexc_loop mT len 0 false).isEmpty
    · rw [if_pos he]; simp
    · rw [if_neg he]; omega
  · have hb := R_pcre_gregexpr_loop_length mP hmP slen slen 0 (by omega)
    unfold R_pcre_gregexpr_model
    by_cases he : (R_pcre_gregexpr_loop mP hmP slen 0).isEmpty
    · rw [if_pos he]; simp
    · rw [if_neg he]; omega

theorem mP_example_valid :
    ∀ start st eo, mP_example start = some (st, eo) → start ≤ st := by
  intro start st eo h
  unfold mP_example at h
  injection h with h2
  rw [Prod.mk.injEq] at h2
  omega

/-- Claim C4 witness: both loops run within the bound on a length-2 subject
under engines that always report the empty match at the current position. -/
theorem C4_gregexpr_empty_match_bound_witness :
    (gregexpr_Regexc_model mT_example 2).length ≤ 3 ∧
    (R_pcre_gregexpr_model mP_example mP_example_valid 2).length ≤ 3 :=
  C4_gregexpr_empty_match_bound mT_example 2 mP_example mP_example_valid 2
    rfl rfl

theorem mB_example_valid :
    ∀ b l so eo, mB_example b l = some (so, eo) → so ≤ eo ∧ eo ≤ l.length := by
  intro b l so eo h
  unfold mB_example at h
  by_cases hl : l.length = 0
  · rw [if_pos hl] at h; exact absurd h (by simp)
  · rw [if_neg hl] at h
    injection h with h2
    rw [Prod.mk.injEq] at h2
    obtain ⟨h1, h2⟩ := h2
    omega

/-- Claim C8: for sub and gsub with a non-missing pattern and a missing
replacement, an element where the pattern does not occur is returned as the
original element, while an element with at least one occurrence yields the
missing value; neither case is an error.  Stated for the fixed branch
(grep.c lines 2094-2101) and the ERE branch (lines 2281-2284); global
covers both sub and gsub. -/
theorem C8_na_replacement (global repNA : Bool) (spat s : List Char)
    (hpat : spat ≠ []) (srep : Option (List Char)) (st : Nat)
    (m : Bool → List Char → Option (Nat × Nat))
    (hm : ∀ b l so eo, m b l = some (so, eo) → so ≤ eo ∧ eo ≤ l.length)
    (adj : Bool → List Char → List Char) (p : Nat × Nat) :
    (fgrep_one_bytes spat s = none →
      do_gsub_fixed_elem global spat hpat srep (some s) = some s) ∧
    (fgrep_one_bytes spat s = some st →
      do_gsub_fixed_elem global spat hpat none (some s) = none) ∧
    (m false s = none → do_gsub_ere_elem m hm adj global repNA s = some s) ∧
    (m false s = some p → do_gsub_ere_elem m hm adj global true s = none) := by
  refine ⟨?_, ?_, ?_, ?_⟩
  · intro h; simp [do_gsub_fixed_elem, h]
  · intro h; simp [do_gsub_fixed_elem, h]
  · intro h; simp [do_gsub_ere_elem, h]
  · intro h; simp [do_gsub_ere_elem, h]

/-- Claim C8 witness: a pattern byte b absent from "a" keeps the element;
a matching pattern with a missing replacement yields the missing value, on
both the fixed and the ERE branches. -/
theorem C8_na_replacement_witness :
    do_gsub_fixed_elem true ['b'] (by decide) (some ['z']) (some ['a']) =
      some ['a'] ∧
    do_gsub_fixed_elem true ['a'] (by decide) none (some ['a']) = none ∧
    do_gsub_ere_elem mB_example mB_example_valid adj_example true false [] =
      some [] ∧
    do_gsub_ere_elem mB_example mB_example_valid adj_example true true
      ['a'] = none := by
  refine ⟨?_, ?_, ?_, ?_⟩
  · exact (C8_na_replacement true false ['b'] ['a'] (by decide) (some ['z'])
      0 mB_example mB_example_valid adj_example (0, 1)).1 (by decide)
  · exact (C8_na_replacement true false ['a'] ['a'] (by decide) none 0
      mB_example mB_example_valid adj_example (0, 1)).2.1 (by decide)
  · exact (C8_na_replacement true false ['a'] [] (by decide) none 0
      mB_example mB_example_valid adj_example (0, 1)).2.2.1 (by decide)
  · exact (C8_na_replacement true true ['a'] ['a'] (by decide) none 0
      mB_example mB_example_valid adj_example (0, 1)).2.2.2 (by decide)

/- Unfolding equations for the ERE substitution loop. -/
theorem do_gsub_ere_loop_nomatch (m : Bool → List Char → Option (Nat × Nat))
    (hm : ∀ b l so eo, m b l = some (so, eo) → so ≤ eo ∧ eo ≤ l.length)
    (adj : Bool → List Char → List Char) (global : Bool) (s : List Char)
    (offset : Nat) (notbol : Bool) (last_end : Int)
    (h : m notbol (s.drop offset) = none) :
    do_gsub_ere_loop m hm adj global s offset notbol last_end =
      ([GsubPiece.lit (s.drop offset)], []) := by
  rw [do_gsub_ere_loop]
  split
  · rfl
  · next so eo heq => rw [h] at heq; exact absurd heq (by simp)

theorem do_gsub_ere_loop_break (m : Bool → List Char → Option (Nat × Nat))
    (hm : ∀ b l so eo, m b l = some (so, eo) → so ≤ eo ∧ eo ≤ l.length)
    (adj : Bool → List Char → List Char) (global : Bool) (s : List Char)
    (offset : Nat) (notbol : Bool) (last_end : Int) (so eo : Nat)
    (h : m notbol (s.drop offset) = some (so, eo))
    (hb : s.length ≤ offset + eo ∨ global = false) :
    do_gsub_ere_loop m hm adj global s offset notbol last_end =
      (GsubPiece.lit ((s.drop offset).take so) ::
        (if (offset + eo : Int) > last_end then
          [GsubPiece.rep (adj notbol (s.drop offset))] else []) ++
        [GsubPiece.lit (s.drop (offset + eo))],
       [(offset + so, offset + eo)]) := by
  rw [do_gsub_ere_loop]
  split
  · next heq => rw [h] at heq; exact absurd heq (by simp)
  · next so' eo' heq =>
      rw [h] at heq
      injection heq with h2
      rw [Prod.mk.injEq] at h2
      obtain ⟨h1, h2⟩ := h2
      subst h1; subst h2
      simp only [dif_pos hb]

theorem do_gsub_ere_loop_empty (m : Bool → List Char → Option (Nat × Nat))
    (hm : ∀ b l so eo, m b l = some (so, eo) → so ≤ eo ∧ eo ≤ l.length)
    (adj : Bool → List Char → List Char) (global : Bool) (s : List Char)
    (offset : Nat) (notbol : Bool) (last_end : Int) (so eo : Nat)
    (h : m notbol (s.drop offset) = some (so, eo))
    (hb : ¬(s.length ≤ offset + eo ∨ global = false)) (he : eo = so) :
    do_gsub_ere_loop m hm adj global s offset notbol last_end =
      (GsubPiece.lit ((s.drop offset).take so) ::
        (if (offset + eo : Int) > last_end then
          [GsubPiece.rep (adj notbol (s.drop offset))] else []) ++
        GsubPiece.lit ((s.drop (offset + eo)).take 1) ::
        (do_gsub_ere_loop m hm adj global s (offset + eo + 1) true
          (if (offset + eo : Int) > last_end then (offset + eo : Int)
           else last_end)).1,
       (offset + so, offset + eo) ::
        (do_gsub_ere_loop m hm adj global s (offset + eo + 1) true
          (if (offset + eo : Int) > last_end then (offset + eo : Int)
           else last_end)).2) := by
  rw [do_gsub_ere_loop]
  split
  · next heq => rw [h] at heq; exact absurd heq (by simp)
  · next so' eo' heq =>
      rw [h] at heq
      injection heq with h2
      rw [Prod.mk.injEq] at h2
      obtain ⟨h1, h2⟩ := h2
      subst h1; subst h2
      simp only [dif_neg hb, dif_pos he]

theorem do_gsub_ere_loop_cont (m : Bool → List Char → Option (Nat × Nat))
    (hm : ∀ b l so eo, m b l = some (so, eo) → so ≤ eo ∧ eo ≤ l.length)
    (adj : Bool → List Char → List Char) (global : Bool) (s : List Char)
    (offset : Nat) (notbol : Bool) (last_end : Int) (so eo : Nat)
    (h : m notbol (s.drop offset) = some (so, eo))
    (hb : ¬(s.length ≤ offset + eo ∨ global = false)) (he : ¬eo = so) :
    do_gsub_ere_loop m hm adj global s offset notbol last_end =
      (GsubPiece.lit ((s.drop offset).take so) ::
        (if (offset + eo : Int) > last_end then
          [GsubPiece.rep (adj notbol (s.drop offset))] else []) ++
        (do_gsub_ere_loop m hm adj global s (offset + eo) true
          (if (offset + eo : Int) > last_end then (offset + eo : Int)
           else last_end)).1,
       (offset + so, offset + eo) ::
        (do_gsub_ere_loop m hm adj global s (offset + eo) true
          (if (offset + eo : Int) > last_end then (offset + eo : Int)
           else last_end)).2) := by
  rw [do_gsub_ere_loop]
  split
  · next heq => rw [h] at heq; exact absurd heq (by simp)
  · next so' eo' heq =>
      rw [h] at heq
      injection heq with h2
      rw [Prod.mk.injEq] at h2
      obtain ⟨h1, h2⟩ := h2
      subst h1; subst h2
      simp only [dif_neg hb, dif_neg he]

/- Every match range recorded by the substitution loop starts at or after
   the offset the loop was entered with, is well ordered, and ends within
   the subject. -/
theorem do_gsub_ere_loop_ranges (m : Bool → List Char → Option (Nat × Nat))
    (hm : ∀ b l so eo, m b l = some (so, eo) → so ≤ eo ∧ eo ≤ l.length)
    (adj : Bool → List Char → List Char) (global : Bool) (s : List Char) :
    ∀ fuel offset notbol last_end, s.length - offset ≤ fuel →
    offset ≤ s.length →
    ∀ r ∈ (do_gsub_ere_loop m hm adj global s offset notbol last_end).2,
      offset ≤ r.1 ∧ r.1 ≤ r.2 ∧ r.2 ≤ s.length := by
  intro fuel
  induction fuel with
  | zero =>
      intro offset notbol last_end hf hoffs r hr
      cases hmat : m notbol (s.drop offset) with
      | none =>
          rw [do_gsub_ere_loop_nomatch m hm adj global s offset notbol
            last_end hmat] at hr
          exact absurd hr (by simp)
      | some p =>
          obtain ⟨so, eo⟩ := p
          have hv := hm notbol (s.drop offset) so eo hmat
          rw [List.length_drop] at hv
          have hb : s.length ≤ offset + eo ∨ global = false :=
            Or.inl (by omega)
          rw [do_gsub_ere_loop_break m hm adj global s offset notbol
            last_end so eo hmat hb] at hr
          simp only [List.mem_singleton] at hr
          subst hr
          refine ⟨by omega, by omega, by omega⟩
  | succ k ih =>
      intro offset notbol last_end hf hoffs r hr
      cases hmat : m notbol (s.drop offset) with
      | none =>
          rw [do_gsub_ere_loop_nomatch m hm adj global s offset notbol
            last_end hmat] at hr
          exact absurd hr (by simp)
      | some p =>
          obtain ⟨so, eo⟩ := p
          have hv := hm notbol (s.drop offset) so eo hmat
          rw [List.length_drop] at hv
          by_cases hb : s.length ≤ offset + eo ∨ global = false
          · rw [do_gsub_ere_loop_break m hm adj global s offset notbol
              last_end so eo hmat hb] at hr
            simp only [List.mem_singleton] at hr
            subst hr
            refine ⟨by omega, by omega, by omega⟩
          · have hoff : offset + eo < s.length := by
              rcases not_or.mp hb with ⟨h1, _⟩
              omega
            by_cases he : eo = so
            · rw [do_gsub_ere_loop_empty m hm adj global s offset notbol
                last_end so eo hmat hb he] at hr
              simp only [List.mem_cons] at hr
              rcases hr with hr | hr
              · subst hr
                refine ⟨by omega, by omega, by omega⟩
              · have := ih (offset + eo + 1) true
                  (if (offset + eo : Int) > last_end then (offset + eo : Int)
                   else last_end) (by omega) (by omega) r hr
                omega
            · rw [do_gsub_ere_loop_cont m hm adj global s offset notbol
                last_end so eo hmat hb he] at hr
              simp only [List.mem_cons] at hr
              rcases hr with hr | hr
              · subst hr
                refine ⟨by omega, by omega, by omega⟩
              · have := ih (offset + eo) true
                  (if (offset + eo : Int) > last_end then (offset + eo : Int)
                   else last_end) (by omega) (by omega) r hr
                omega

theorem litBytes_append (l1 l2 : List GsubPiece) :
    litBytes (l1 ++ l2) = litBytes l1 ++ litBytes l2 := by
  induction l1 with
  | nil => rfl
  | cons p ps ih =>
      cases p with
      | lit cs =>
          simp only [List.cons_append, litBytes, List.append_eq, ih,
            List.append_assoc]
      | rep cs =>
          simp only [List.cons_append, litBytes, List.append_eq, ih]

theorem litBytes_if_rep (c : Prop) [Decidable c] (x : List Char) :
    litBytes (if c then [GsubPiece.rep x] else []) = [] := by
  split <;> rfl

theorem outsideFrom_step (s : List Char) (off : Nat)
    (ranges : List (Nat × Nat)) (hoff : off < s.length)
    (hr : ∀ r ∈ ranges, off + 1 ≤ r.1) :
    outsideFrom s off ranges =
      (s.drop off).take 1 ++ outsideFrom s (off + 1) ranges := by
  have h1 : (s.drop off).drop 1 = s.drop (off + 1) := by
    rw [List.drop_drop, Nat.add_comm]
  cases ranges with
  | nil =>
      simp only [outsideFrom]
      conv_lhs => rw [← List.take_append_drop 1 (s.drop off)]
      rw [h1]
  | cons r rest =>
      obtain ⟨a, b⟩ := r
      have ha : off + 1 ≤ a := hr (a, b) (List.mem_cons_self _ _)
      simp only [outsideFrom]
      have h2 : a - off = 1 + (a - (off + 1)) := by omega
      rw [h2, List.take_add, h1, List.append_assoc]

/- The frame property of the substitution loop: the bytes copied verbatim
   are exactly the bytes of the subject outside the recorded match ranges,
   in order. -/
theorem do_gsub_ere_loop_frame (m : Bool → List Char → Option (Nat × Nat))
    (hm : ∀ b l so eo, m b l = some (so, eo) → so ≤ eo ∧ eo ≤ l.length)
    (adj : Bool → List Char → List Char) (global : Bool) (s : List Char) :
    ∀ fuel offset notbol last_end, s.length - offset ≤ fuel →
    offset ≤ s.length →
    litBytes (do_gsub_ere_loop m hm adj global s offset notbol last_end).1 =
      outsideFrom s offset
        (do_gsub_ere_loop m hm adj global s offset notbol last_end).2 := by
  intro fuel
  induction fuel with
  | zero =>
      intro offset notbol last_end hf hoffs
      cases hmat : m notbol (s.drop offset) with
      | none =>
          rw [do_gsub_ere_loop_nomatch m hm adj global s offset notbol
            last_end hmat]
          simp [litBytes, outsideFrom]
      | some p =>
          obtain ⟨so, eo⟩ := p
          have hv := hm notbol (s.drop offset) so eo hmat
          rw [List.length_drop] at hv
          have hb : s.length ≤ offset + eo ∨ global = false :=
            Or.inl (by omega)
          rw [do_gsub_ere_loop_break m hm adj global s offset notbol
            last_end so eo hmat hb]
          have hso : offset + so - offset = so := by omega
          simp only [litBytes, List.append_eq, litBytes_append,
            litBytes_if_rep, outsideFrom, hso, List.append_nil,
            List.nil_append]
  | succ k ih =>
      intro offset notbol last_end hf hoffs
      cases hmat : m notbol (s.drop offset) with
      | none =>
          rw [do_gsub_ere_loop_nomatch m hm adj global s offset notbol
            last_end hmat]
          simp [litBytes, outsideFrom]
      | some p =>
          obtain ⟨so, eo⟩ := p
          have hv := hm notbol (s.drop offset) so eo hmat
          rw [List.length_drop] at hv
          by_cases hb : s.length ≤ offset + eo ∨ global = false
          · rw [do_gsub_ere_loop_break m hm adj global s offset notbol
              last_end so eo hmat hb]
            have hso : offset + so - offset = so := by omega
            simp only [litBytes, List.append_eq, litBytes_append,
              litBytes_if_rep, outsideFrom, hso, List.append_nil,
              List.nil_append]
          · have hoff2 : offset + eo < s.length := by
              rcases not_or.mp hb with ⟨h1, _⟩
              omega
            by_cases he : eo = so
            · rw [do_gsub_ere_loop_empty m hm adj global s offset notbol
                last_end so eo hmat hb he]
              have hso : offset + so - offset = so := by omega
              have hnext := ih (offset + eo + 1) true
                (if (offset + eo : Int) > last_end then (offset + eo : Int)
                 else last_end) (by omega) (by omega)
              have hranges := do_gsub_ere_loop_ranges m hm adj global s
                k (offset + eo + 1) true
                (if (offset + eo : Int) > last_end then (offset + eo : Int)
                 else last_end) (by omega) (by omega)
              have hstep := outsideFrom_step s (offset + eo)
                (do_gsub_ere_loop m hm adj global s (offset + eo + 1) true
                  (if (offset + eo : Int) > last_end then (offset + eo : Int)
                   else last_end)).2 hoff2
                (fun r hrr => (hranges r hrr).1)
              simp only [litBytes, List.append_eq, litBytes_append,
                litBytes_if_rep, outsideFrom, hso, List.append_nil,
                List.nil_append, List.append_assoc]
              rw [hnext, hstep]
            · rw [do_gsub_ere_loop_cont m hm adj global s offset notbol
                last_end so eo hmat hb he]
              have hso : offset + so - offset = so := by omega
              have hnext := ih (offset + eo) true
                (if (offset + eo : Int) > last_end then (offset + eo : Int)
                 else last_end) (by omega) (by omega)
              simp only [litBytes, List.append_eq, litBytes_append,
                litBytes_if_rep, outsideFrom, hso, List.append_nil,
                List.nil_append, List.append_assoc]
              rw [hnext]

/-- Claim C3: in the substitution loop of do_gsub, on an element with a
non-missing replacement, the output buffer decomposes into pieces (verbatim
copies and inserted replacements) such that the verbatim bytes are exactly
the bytes of the subject outside the matched ranges — the chunk before the
first match, the gaps between matches, and the tail after the last match —
in order; only bytes inside the recorded match ranges are missing from the
verbatim part.  The matcher and the replacement builder are abstract, so
this holds for every pattern, every replacement, and both sub (global
false) and gsub (global true). -/
theorem C3_gsub_frame (m : Bool → List Char → Option (Nat × Nat))
    (hm : ∀ b l so eo, m b l = some (so, eo) → so ≤ eo ∧ eo ≤ l.length)
    (adj : Bool → List Char → List Char) (global : Bool) (s : List Char) :
    (do_gsub_ere m hm adj global s).1 =
      joinPieces (do_gsub_ere m hm adj global s).2.1 ∧
    litBytes (do_gsub_ere m hm adj global s).2.1 =
      outsideFrom s 0 (do_gsub_ere m hm adj global s).2.2 ∧
    ∀ r ∈ (do_gsub_ere m hm adj global s).2.2,
      r.1 ≤ r.2 ∧ r.2 ≤ s.length := by
  refine ⟨rfl, ?_, ?_⟩
  · have h := do_gsub_ere_loop_frame m hm adj global s s.length 0 false (-1)
      (by omega) (by omega)
    simpa [do_gsub_ere] using h
  · intro r hr
    have h := do_gsub_ere_loop_ranges m hm adj global s s.length 0 false (-1)
      (by omega) (by omega) r (by simpa [do_gsub_ere] using hr)
    exact ⟨h.2.1, h.2.2⟩

/-- Claim C3 witness: the frame property at a concrete subject "xy" under a
concrete engine that always matches the first byte of the suffix. -/
theorem C3_gsub_frame_witness :
    (do_gsub_ere mB_example mB_example_valid adj_example true
        ['x', 'y']).1 =
      joinPieces (do_gsub_ere mB_example mB_example_valid adj_example true
        ['x', 'y']).2.1 ∧
    litBytes (do_gsub_ere mB_example mB_example_valid adj_example true
        ['x', 'y']).2.1 =
      outsideFrom ['x', 'y'] 0
        (do_gsub_ere mB_example mB_example_valid adj_example true
          ['x', 'y']).2.2 ∧
    ∀ r ∈ (do_gsub_ere mB_example mB_example_valid adj_example true
        ['x', 'y']).2.2,
      r.1 ≤ r.2 ∧ r.2 ≤ (['x', 'y'] : List Char).length :=
  C3_gsub_frame mB_example mB_example_valid adj_example true ['x', 'y']

end RGrep
